import Mathlib

/-!
Verification development for the `simpleagent` repository: a shallow
embedding, in Lean 4, of the streaming inference client
(`claude/stream.go` / `claude/types.go`), the permission gate
(`tools/confirm.go`), the filesystem / shell tools (`tools/fs.go`,
`tools/bash.go`, `tools/replace.go`), the tool registry
(`tools/tools.go`), the conversation loop (`agent.go` / `reminders.go`)
and the subagent runner (`tools/subagent.go`), together with theorems
settling the specified behavioural claims.

Modelling conventions:
* Go strings are modelled as Lean `String` (a wrapper around
  `List Char`).  Go indexes bytes while Lean indexes characters; all
  string literals compared by the embedded code are ASCII, where the two
  coincide.  Byte-level truncation (`s[:500]`) is modelled as
  character-level truncation.
* Terminal styling (the `lipgloss` color/badge layer in
  `tools/styles.go`) is display-only and out of scope; badge rendering is
  reduced to its plain text content.
* External I/O (HTTP transport, `os.ReadFile`, `os.WriteFile`,
  `exec.Command`, stdin) is modelled by explicit oracle parameters and an
  effect trace; JSON decoding of wire frames and tool inputs is modelled
  structurally (a frame either fails to decode or yields an event
  record).
-/

namespace SimpleAgent

/-! ### Go string primitives (package `strings`) -/

/-- Concatenation of a list of strings in order (left to right),
the result of successive Go `+=` appends. -/
def strConcat : List String → String
  | [] => ""
  | x :: xs => x ++ strConcat xs

/-- Go `strings.HasPrefix(s, pfx)`. -/
def goHasPfx (s pfx : String) : Bool :=
  pfx.data.isPrefixOf s.data

/-- Go `strings.TrimPrefix(s, pfx)`: drops `pfx` when it is a prefix,
otherwise returns `s` unchanged. -/
def goTrimPfx (s pfx : String) : String :=
  if goHasPfx s pfx then ⟨s.data.drop pfx.data.length⟩ else s

/-- Occurrence test for `strings.Contains`: does `sub` occur in `l`? -/
def hasInfix : List Char → List Char → Bool
  | [], sub => sub.isEmpty
  | c :: rest, sub => sub.isPrefixOf (c :: rest) || hasInfix rest sub

/-- Go `strings.Contains(s, sub)`. -/
def goContains (s sub : String) : Bool :=
  hasInfix s.data sub.data

/-- Non-overlapping occurrence count of a non-empty pattern, the worker
behind `strings.Count`. -/
def countOcc : List Char → List Char → Nat
  | [], _ => 0
  | c :: rest, sub =>
    if sub.isPrefixOf (c :: rest) then
      1 + countOcc ((c :: rest).drop (max sub.length 1)) sub
    else
      countOcc rest sub
termination_by l _ => l.length
decreasing_by
  all_goals (simp only [List.length_drop, List.length_cons]; omega)

/-- Go `strings.Count(s, sub)`: for the empty pattern Go returns
`1 + RuneCount(s)`; otherwise the non-overlapping occurrence count. -/
def goCount (s sub : String) : Nat :=
  if sub.data.isEmpty then s.data.length + 1 else countOcc s.data sub.data

/-- Go `strings.Index(s, sub)` (as an `Option` instead of `-1`). -/
def findIdx : List Char → List Char → Option Nat
  | l, sub =>
    if sub.isPrefixOf l then some 0
    else
      match l with
      | [] => none
      | _ :: rest => (findIdx rest sub).map (· + 1)

/-- Go `strings.Replace(s, old, new, 1)`: replace the first occurrence
of `old` (for empty `old`, Go inserts `new` at the start). -/
def replaceFirst (s old new : String) : String :=
  match findIdx s.data old.data with
  | none => s
  | some i => ⟨s.data.take i ++ new.data ++ s.data.drop (i + old.data.length)⟩

/-- Go `strings.ToLower` (ASCII; all strings the embedded code
lowercases and compares are ASCII). -/
def goLower (s : String) : String :=
  ⟨s.data.map Char.toLower⟩

/-- Go `strings.TrimSpace`. -/
def goTrim (s : String) : String :=
  ⟨((s.data.dropWhile Char.isWhitespace).reverse.dropWhile Char.isWhitespace).reverse⟩

/-- Go `strings.Split(s, "\n")` (the only separator the embedded code
splits on): the pieces between newline characters; always non-empty. -/
def splitNl : List Char → List (List Char)
  | [] => [[]]
  | c :: rest =>
    let r := splitNl rest
    if c = '\n' then [] :: r
    else
      match r with
      | [] => [[c]]
      | h :: t => (c :: h) :: t

/-- String-level wrapper of `splitNl`. -/
def goSplitLines (s : String) : List String :=
  (splitNl s.data).map String.mk

/-- Go `strings.Join(lines, "\n")`. -/
def goJoinLines : List String → String
  | [] => ""
  | [x] => x
  | x :: y :: rest => x ++ "\n" ++ goJoinLines (y :: rest)

/-- Go `strings.ReplaceAll(s, "\r\n", "\n")` (the only `ReplaceAll` in
the embedded code): a left-to-right non-overlapping scan. -/
def normNl : List Char → List Char
  | [] => []
  | '\r' :: '\n' :: rest => '\n' :: normNl rest
  | c :: rest => c :: normNl rest

/-! ### Streaming data model (`claude/types.go`, `claude/stream.go`) -/

/-- `claude.ContentBlock`: one unit of assistant output.  `input`
(`json.RawMessage` in Go) is kept as its raw string. -/
structure ContentBlock where
  type : String
  text : String := ""
  id : String := ""
  name : String := ""
  input : String := ""
  thinking : String := ""
  signature : String := ""
deriving Repr, DecidableEq

/-- The `message` payload of an SSE `message_start` frame. -/
structure SseMessageInfo where
  id : String := ""
  model : String := ""
  role : String := ""
deriving Repr, DecidableEq

/-- The `delta` payload of an SSE frame (`sseEvent.Delta`). -/
structure SseDelta where
  type : String := ""
  text : String := ""
  partialJSON : String := ""
  stopReason : String := ""
  thinking : String := ""
  reasoningContent : String := ""
deriving Repr, DecidableEq

/-- A decoded SSE frame (`sseEvent`). -/
structure SseEvent where
  type : String
  index : Nat := 0
  message : Option SseMessageInfo := none
  delta : SseDelta := {}
  contentBlock : Option ContentBlock := none
deriving Repr, DecidableEq

/-- `claude.Message` (usage counters omitted; they never influence the
embedded control flow). -/
structure Message where
  id : String := ""
  type : String := ""
  role : String := ""
  content : List ContentBlock := []
  model : String := ""
  stopReason : String := ""
  reasoningContent : String := ""
deriving Repr, DecidableEq

/-- One line read from the streaming response body: either a line
without the `data: ` prefix (ignored), a data line whose JSON payload
fails to decode (skipped), or a successfully decoded frame. -/
inductive StreamLine where
  | other (raw : String)
  | malformed (raw : String)
  | frame (e : SseEvent)
deriving Repr, DecidableEq

/-- The accumulation state of `MessageStream.FinalMessage`: the message
built so far, the currently open block, the partial tool-input buffer
and the concatenated text (`ms.finalText`). -/
structure StreamState where
  message : Message := {}
  currentBlock : Option ContentBlock := none
  toolInputJSON : String := ""
  finalText : String := ""
deriving Repr, DecidableEq

/-- One step of the `switch event.Type` accumulation loop in
`MessageStream.FinalMessage`. -/
def applyEvent (s : StreamState) (e : SseEvent) : StreamState :=
  if e.type == "message_start" then
    match e.message with
    | some m =>
      { s with message := { s.message with id := m.id, model := m.model, role := m.role } }
    | none => s
  else if e.type == "content_block_start" then
    { s with currentBlock := e.contentBlock, toolInputJSON := "" }
  else if e.type == "content_block_delta" then
    match s.currentBlock with
    | none => s
    | some cb =>
      if e.delta.type == "text_delta" then
        { s with currentBlock := some { cb with text := cb.text ++ e.delta.text },
                 finalText := s.finalText ++ e.delta.text }
      else if e.delta.type == "input_json_delta" then
        { s with toolInputJSON := s.toolInputJSON ++ e.delta.partialJSON }
      else if e.delta.type == "thinking_delta" then
        { s with currentBlock := some { cb with thinking := cb.thinking ++ e.delta.thinking } }
      else s
  else if e.type == "content_block_stop" then
    match s.currentBlock with
    | none => s
    | some cb =>
      let fin :=
        if cb.type == "tool_use" && !(s.toolInputJSON == "") then
          { cb with input := s.toolInputJSON }
        else cb
      { s with message := { s.message with content := s.message.content ++ [fin] },
               currentBlock := none }
  else if e.type == "message_delta" then
    let s1 :=
      if !(e.delta.stopReason == "") then
        { s with message := { s.message with stopReason := e.delta.stopReason } }
      else s
    if !(e.delta.reasoningContent == "") then
      { s1 with message := { s1.message with
          reasoningContent := s1.message.reasoningContent ++ e.delta.reasoningContent } }
    else s1
  else
    s

/-- Process one line of the response body: non-data lines and
undecodable frames leave the state unchanged (`continue`). -/
def applyLine (s : StreamState) (l : StreamLine) : StreamState :=
  match l with
  | .other _ => s
  | .malformed _ => s
  | .frame e => applyEvent s e

/-- The scanner loop of `MessageStream.FinalMessage` over a whole body. -/
def processLines (s : StreamState) (ls : List StreamLine) : StreamState :=
  ls.foldl applyLine s

/-- `MessageStream.FinalMessage` after a successful transport phase
(non-2xx and connection errors return before the loop starts):
`scanErr` is the terminal `scanner.Err()`, the only remaining error
source once the lines have been consumed; on a scanner error Go returns
`(nil, err)`, otherwise the accumulated message and no error. -/
def finalMessage (ls : List StreamLine) (scanErr : Option String) :
    Option Message × Option String :=
  match scanErr with
  | some e => (none, some e)
  | none => (some (processLines {} ls).message, none)

/-- `MessageStream.Events`: the raw-event channel forwards exactly the
decodable data frames, in order. -/
def eventsOf (ls : List StreamLine) : List SseEvent :=
  ls.filterMap fun l =>
    match l with
    | .frame e => some e
    | _ => none

/-- A `content_block_start` frame opening block `cb`. -/
def startFrame (cb : ContentBlock) : StreamLine :=
  .frame { type := "content_block_start", contentBlock := some cb }

/-- A `content_block_delta` frame carrying delta payload `d`. -/
def deltaFrame (d : SseDelta) : StreamLine :=
  .frame { type := "content_block_delta", delta := d }

/-- A `content_block_stop` frame. -/
def stopFrame : StreamLine :=
  .frame { type := "content_block_stop" }

/-- The `text_delta` fragments of a delta list, in arrival order. -/
def textFrags (ds : List SseDelta) : List String :=
  (ds.filter fun d => d.type == "text_delta").map fun d => d.text

/-- The `thinking_delta` fragments of a delta list, in arrival order. -/
def thinkingFrags (ds : List SseDelta) : List String :=
  (ds.filter fun d => d.type == "thinking_delta").map fun d => d.thinking

/-- The `input_json_delta` fragments of a delta list, in arrival order. -/
def inputFrags (ds : List SseDelta) : List String :=
  (ds.filter fun d => d.type == "input_json_delta").map fun d => d.partialJSON

/-! ### Display text layer (`tools/styles.go`, `tools/confirm.go`)

The `lipgloss` badge/color layer is terminal styling (out of scope);
the functions below keep the plain text content of each format. -/

/-- `Error(msg)`: the error badge text followed by the message. -/
def errText (msg : String) : String :=
  "error " ++ msg

/-- `Status(msg)`: the info badge carrying `msg`. -/
def statusText (msg : String) : String :=
  msg

/-- `truncateLines`: first `max` lines, or all if shorter. -/
def truncateLines (lines : List String) (max : Nat) : List String :=
  if lines.length ≤ max then lines else lines.take max

/-- `formatLines`: a diff-style section with prefix, header, per-line
prefixes and truncation notice. -/
def formatLines (pfx header text : String) (maxLines : Nat) : String :=
  let lines := (String.mk (normNl text.data)).data  -- strings.ReplaceAll(text, "\r\n", "\n")
  let lineList := (splitNl lines).map String.mk
  let truncated := truncateLines lineList maxLines
  let linePfx := pfx.take 1 ++ " "
  let body := strConcat (truncated.map fun l => linePfx ++ l ++ "\n")
  let tailNote :=
    if maxLines < lineList.length then
      linePfx ++ "... and " ++ toString (lineList.length - maxLines) ++ " more lines\n"
    else ""
  pfx ++ " " ++ header ++ " (" ++ toString lineList.length ++ " lines)\n" ++ body ++ tailNote

/-- `formatContentPreview` (fs.go): preview of content to be written. -/
def formatContentPreview (content : String) : String :=
  formatLines "+++" "New file content" content 10

/-- `formatDiff` (replace.go): removed and added sections. -/
def formatDiff (oldText newText : String) : String :=
  formatLines "---" "Removed" oldText 5 ++ "\n" ++ formatLines "+++" "Added" newText 5

/-! ### Permission gate (`tools/confirm.go`) -/

/-- The triple returned by `RequestPermissionWithDiff`:
`(allowed, reason, setAcceptAll)`. -/
structure PermReply where
  allowed : Bool
  reason : String
  setAcceptAll : Bool
deriving Repr, DecidableEq

/-- Observable side effects of the tool layer: the interactive
permission prompt and the operating-system calls that mutate state. -/
inductive Effect where
  | permissionPrompt (op path : String)
  | fsWrite (path content : String)
  | fsRemove (path : String)
  | fsRemoveAll (path : String)
  | fsMkdirAll (path : String)
  | execProcess (argv : List String)
deriving Repr, DecidableEq

/-- `RequestPermissionWithDiff(op, path, details, diff)`.  `mode` is the
process-wide `permissionsMode`; `stdin` the pending user input lines.
In `accept_all` mode it returns immediately: no prompt is displayed and
no input is read.  Otherwise it displays the prompt, consumes one input
line, lowercases and trims it, and maps `a`/`all` to an allow that
escalates, `y`/`yes` to a one-time allow, anything else to a denial.
Returns the reply, the remaining stdin and the effects performed. -/
def requestPermissionWithDiff (mode : String) (stdin : List String)
    (op path _details _diff : String) : PermReply × List String × List Effect :=
  if mode == "accept_all" then
    (⟨true, "auto-accepted (session mode)", false⟩, stdin, [])
  else
    let response := goTrim (goLower (stdin.headD ""))
    let rest := stdin.tail
    let effs := [Effect.permissionPrompt op path]
    if response == "a" || response == "all" then
      (⟨true, "permission granted (accept all this session)", true⟩, rest, effs)
    else if response == "y" || response == "yes" then
      (⟨true, "permission granted", false⟩, rest, effs)
    else
      (⟨false, "permission denied", false⟩, rest, effs)

/-- `RequestPermission(op, path, details)`: delegates with an empty diff. -/
def requestPermission (mode : String) (stdin : List String)
    (op path details : String) : PermReply × List String × List Effect :=
  requestPermissionWithDiff mode stdin op path details ""

/-- One permission request as issued by a gated tool. -/
structure PermRequest where
  op : String
  path : String
  details : String
  diff : String
deriving Repr, DecidableEq

/-- A gated request as the tools perform it: call the gate, then (as in
`writeFile`/`rm`/`replaceText`) switch the session to `accept_all` when
the reply asks for escalation. -/
def gatedRequest (mode : String) (stdin : List String) (r : PermRequest) :
    PermReply × String × List String × List Effect :=
  let (reply, stdin', effs) := requestPermissionWithDiff mode stdin r.op r.path r.details r.diff
  (reply, if reply.setAcceptAll then "accept_all" else mode, stdin', effs)

/-- A session-long sequence of gated permission requests, threading the
process-wide mode and the stdin stream. -/
def runPermissionSession (mode : String) (stdin : List String) :
    List PermRequest → List PermReply × String × List String × List Effect
  | [] => ([], mode, stdin, [])
  | r :: rs =>
    let (reply, mode', stdin', effs) := gatedRequest mode stdin r
    let (replies, mode'', stdin'', effs') := runPermissionSession mode' stdin' rs
    (reply :: replies, mode'', stdin'', effs ++ effs')

/-! ### Filesystem / shell tools (`tools/fs.go`, `tools/bash.go`,
`tools/replace.go`)

Each tool returns its result text (the `Result.String()` carried back
into the conversation), the updated permission mode, the remaining
stdin, and the trace of effects it performed.  Operating-system
failures are oracle parameters (`none` = success). -/

/-- `writeFile`: permission-gated file write. -/
def writeFile (mode : String) (stdin : List String) (path content : String)
    (osWriteErr : Option String) : String × String × List String × List Effect :=
  let preview := formatContentPreview content
  let (reply, stdin', effs) := requestPermissionWithDiff mode stdin "WriteFile" path
    ("Write " ++ toString content.length ++ " bytes") preview
  let mode' := if reply.setAcceptAll then "accept_all" else mode
  if !reply.allowed then
    (errText ("permission denied: " ++ reply.reason), mode', stdin', effs)
  else
    match osWriteErr with
    | some e => (errText e, mode', stdin', effs ++ [.fsWrite path content])
    | none => ("wrote to " ++ path, mode', stdin', effs ++ [.fsWrite path content])

/-- `mkdir`: directory creation.  The source performs `os.MkdirAll`
directly, with no permission request. -/
def mkdir (path : String) (osErr : Option String) : String × List Effect :=
  match osErr with
  | some e => (errText e, [.fsMkdirAll path])
  | none => ("created directory " ++ path, [.fsMkdirAll path])

/-- `rm`: permission-gated file or directory removal. -/
def rm (mode : String) (stdin : List String) (path : String) (recursive : Bool)
    (osErr : Option String) : String × String × List String × List Effect :=
  let details := if recursive then "Recursive remove (dangerous)" else "Remove file"
  let (reply, stdin', effs) := requestPermission mode stdin "Rm" path details
  let mode' := if reply.setAcceptAll then "accept_all" else mode
  if !reply.allowed then
    (errText ("permission denied: " ++ reply.reason), mode', stdin', effs)
  else
    let eff := if recursive then Effect.fsRemoveAll path else Effect.fsRemove path
    match osErr with
    | some e => (errText e, mode', stdin', effs ++ [eff])
    | none => ("removed " ++ path, mode', stdin', effs ++ [eff])

/-- `bash`: shell execution.  The source runs the command directly,
with no permission request; `procOut`/`procExit` are the combined
output and exit code of the spawned process. -/
def bash (args : List String) (_cwd : String) (procOut : String) (procExit : Int) :
    String × List Effect :=
  if args.isEmpty then
    (errText "args is required", [])
  else
    let argv := if args.length == 1 then ["sh", "-c", args.headD ""] else args
    (procOut ++ "\n" ++ statusText ("exit code: " ++ toString procExit),
      [.execProcess argv])

/-- `findMatchLines` (replace.go): 1-indexed line numbers at which the
pattern starts within the joined lines. -/
def findMatchLinesGo (lines : List String) (pattern : String) (baseLineNum : Nat) : List Nat :=
  let joined := (goJoinLines lines).data
  let rec go (idx fuel : Nat) : List Nat :=
    match fuel with
    | 0 => []
    | fuel' + 1 =>
      match findIdx (joined.drop idx) pattern.data with
      | none => []
      | some pos =>
        let absPos := idx + pos
        let lineNum := baseLineNum + countOcc (joined.take absPos) ['\n']
        lineNum :: go (absPos + 1) fuel'
  go 0 (joined.length + 1)

/-- Go `%v` rendering of an integer slice: `[a b c]`. -/
def formatNatList (l : List Nat) : String :=
  "[" ++ String.intercalate " " (l.map toString) ++ "]"

/-- `replaceText` (replace.go): scoped single-occurrence text
replacement, permission-gated before writing.  `readRes` is the
`os.ReadFile` outcome, `osWriteErr` the `os.WriteFile` outcome. -/
def replaceText (mode : String) (stdin : List String)
    (path oldText newText : String) (startLine endLine : Option Int)
    (readRes : Except String String) (osWriteErr : Option String) :
    String × String × List String × List Effect :=
  match readRes with
  | .error e => (errText ("reading: " ++ e), mode, stdin, [])
  | .ok content =>
    let lines := goSplitLines content
    let n : Int := Int.ofNat lines.length
    let startCheck : Except String Nat :=
      match startLine with
      | none => .ok 0
      | some sl =>
        if sl < 1 ∨ n < sl then
          .error ("start_line " ++ toString sl ++ " out of range (1-" ++ toString n ++ ")")
        else .ok (sl - 1).toNat
    let endCheck : Except String Nat :=
      match endLine with
      | none => .ok lines.length
      | some el =>
        if el < 1 ∨ n < el then
          .error ("end_line " ++ toString el ++ " out of range (1-" ++ toString n ++ ")")
        else .ok el.toNat
    match startCheck with
    | .error e => (errText e, mode, stdin, [])
    | .ok startIdx =>
      match endCheck with
      | .error e => (errText e, mode, stdin, [])
      | .ok endIdx =>
        if endIdx ≤ startIdx then
          (errText "start_line must be less than end_line", mode, stdin, [])
        else
          let scopedLines := (lines.drop startIdx).take (endIdx - startIdx)
          let scopedContent := goJoinLines scopedLines
          let count := goCount scopedContent oldText
          if count == 0 then
            let msg :=
              if startLine.isSome || endLine.isSome then
                "old_text not found in lines " ++ toString (startIdx + 1) ++ "-" ++ toString endIdx
              else "old_text not found"
            (errText msg, mode, stdin, [])
          else if 1 < count then
            let matchLines := findMatchLinesGo scopedLines oldText (startIdx + 1)
            (errText ("old_text found " ++ toString count ++ " times at lines " ++
              formatNatList matchLines ++ " - use start_line/end_line to disambiguate"),
              mode, stdin, [])
          else
            let updatedScoped := replaceFirst scopedContent oldText newText
            let updated := goJoinLines
              (lines.take startIdx ++ goSplitLines updatedScoped ++ lines.drop endIdx)
            let diff := formatDiff oldText newText
            let (reply, stdin', effs) :=
              requestPermissionWithDiff mode stdin "ReplaceText" path "Replace text in file" diff
            let mode' := if reply.setAcceptAll then "accept_all" else mode
            if !reply.allowed then
              (errText ("permission denied: " ++ reply.reason), mode', stdin', effs)
            else
              match osWriteErr with
              | some e => (errText ("writing: " ++ e), mode', stdin', effs ++ [.fsWrite path updated])
              | none => ("replaced", mode', stdin', effs ++ [.fsWrite path updated])

/-! ### Tool registry (`tools/tools.go`) -/

/-- A registered tool definition as offered to the model (the
description and input schema carried by `claude.Tool` never influence
the capability-set logic and are omitted). -/
structure ToolDef where
  name : String
deriving Repr, DecidableEq

/-- The local tools registered by the package `init` functions, in
file order: `bash.go`, `exit_plan_mode.go`, `fs.go`, `git.go`,
`glob.go`, `questions.go`, `replace.go`, `search.go`, `skills.go`,
`task.go`.  (The subagent-only `Done` tool registers an executor but no
definition, so it is absent here.) -/
def allLocalTools : List ToolDef :=
  [⟨"bash"⟩, ⟨"ExitPlanMode"⟩, ⟨"ReadFile"⟩, ⟨"WriteFile"⟩, ⟨"Ls"⟩, ⟨"Mkdir"⟩, ⟨"Rm"⟩,
   ⟨"git"⟩, ⟨"glob"⟩, ⟨"AskUserQuestion"⟩, ⟨"ReplaceText"⟩, ⟨"Grep"⟩, ⟨"InvokeSkill"⟩,
   ⟨"Task"⟩]

/-- The `readOnlyTools` allow-map: tools permitted in plan mode. -/
def readOnlyToolsMap (n : String) : Bool :=
  n == "ReadFile" || n == "Ls" || n == "Grep" || n == "Git" || n == "Glob" ||
    n == "AskUserQuestion" || n == "ExitPlanMode"

/-- `All()`: every registered tool definition, local tools followed by
the MCP-provided ones (empty when no MCP clients are configured). -/
def toolsAll (mcp : List ToolDef) : List ToolDef :=
  allLocalTools ++ mcp

/-- `ReadOnly()`: the tools offered in plan mode — the registered local
tools filtered through the `readOnlyTools` allow-map. -/
def toolsReadOnly : List ToolDef :=
  allLocalTools.filter fun t => readOnlyToolsMap t.name

/-! ### Conversation loop (`agent.go`, `reminders.go`) -/

/-- `claude.ToolResultBlock`. -/
structure ToolResultBlock where
  type : String
  toolUseID : String
  content : String
deriving Repr, DecidableEq

/-- The `Content any` field of `claude.MessageParam`: plain text, a
block sequence (assistant turns), or a tool-result batch (tool-reply
turns). -/
inductive MessageContent where
  | text (s : String)
  | blocks (bs : List ContentBlock)
  | toolResults (rs : List ToolResultBlock)
deriving Repr, DecidableEq

/-- `claude.MessageParam`: one conversation entry. -/
structure MessageParam where
  role : String
  content : MessageContent
deriving Repr, DecidableEq

/-- The agent session state touched by tool execution
(`Agent.planMode`, `Agent.turnsSinceTodoWrite`). -/
structure AgentSt where
  planMode : Bool
  turnsSinceTodoWrite : Nat
deriving Repr, DecidableEq

/-- `Agent.executeTools`: run every `tool_use` block of an assistant
message in emission order through the dispatcher `exec` (name and raw
input to result text), updating the plan-mode / todo counters on the
way, and collect one `tool_result` per block carrying the block's id. -/
def executeToolsGo (exec : String → String → String) :
    AgentSt → List ContentBlock → AgentSt × List ToolResultBlock
  | a, [] => (a, [])
  | a, b :: rest =>
    if b.type != "tool_use" then executeToolsGo exec a rest
    else
      let r := exec b.name b.input
      let a1 := if b.name == "TodoWrite" then { a with turnsSinceTodoWrite := 0 } else a
      let a2 :=
        if b.name == "ExitPlanMode" && goContains r "\"decision\":\"Accept\"" then
          { a1 with planMode := false }
        else a1
      let res := executeToolsGo exec a2 rest
      (res.1, ⟨"tool_result", b.id, r⟩ :: res.2)

/-- `AgentState` as consumed by `GetReminders`. -/
structure ReminderState where
  planMode : Bool
  turnsSinceTodoWrite : Nat
  hasPendingTodos : Bool
deriving Repr, DecidableEq

/-- The todo reminder text. -/
def todoReminderText : String :=
  "<system-reminder>\nThe TodoWrite tool hasn't been used recently. If working on multi-step tasks, consider updating the todo list to track progress.\n</system-reminder>"

/-- The plan-mode reminder text. -/
def planModeReminderText : String :=
  "<system-reminder>\nYou are in PLAN MODE. You can only read and explore - no file modifications allowed.\nUse ReadFile, Ls, Grep, and Git (read-only ops) to analyze the codebase.\nWhen your plan is complete, tell the user to exit plan mode with /plan to execute.\n</system-reminder>"

/-- `todoReminder`: fires after three turns without a `TodoWrite` while
todos are pending (the pending check is the `HasPendingTodos` field
computed by the loop from the session todos). -/
def todoReminder (st : ReminderState) : String :=
  if 3 ≤ st.turnsSinceTodoWrite && st.hasPendingTodos then todoReminderText else ""

/-- `planModeReminder`: fires while plan mode is active. -/
def planModeReminder (st : ReminderState) : String :=
  if st.planMode then planModeReminderText else ""

/-- `GetReminders`: the applicable reminders joined with newlines. -/
def getReminders (st : ReminderState) : String :=
  String.intercalate "\n" (([todoReminder st, planModeReminder st]).filter fun r => r != "")

/-- Append a reminder to the content of the last tool result
(`last.Content += "\n" + reminders`). -/
def appendToLast : List ToolResultBlock → String → List ToolResultBlock
  | [], _ => []
  | [b], x => [{ b with content := b.content ++ "\n" ++ x }]
  | b :: rest, x => b :: appendToLast rest x

/-- One iteration of `Agent.RunInferenceTurn` after the streamed
response `msg` has arrived: append the assistant entry, execute the
requested tools, and either end the turn (no tool results) or append
the tool-result batch — with any reminder appended to the last
result's text — as the next conversation entry and continue.  Returns
the updated agent state, the conversation and whether the loop
re-enters `Requesting`. -/
def runInferenceStep (exec : String → String → String) (a : AgentSt)
    (hasPendingTodos : Bool) (messages : List MessageParam) (msg : Message) :
    AgentSt × List MessageParam × Bool :=
  let messages1 := messages ++ [⟨"assistant", .blocks msg.content⟩]
  let res := executeToolsGo exec a msg.content
  let a' := res.1
  let toolResults := res.2
  if toolResults.isEmpty then
    (a', messages1, false)
  else
    let st : ReminderState := ⟨a'.planMode, a'.turnsSinceTodoWrite, hasPendingTodos⟩
    let r := getReminders st
    let toolResults' := if r != "" then appendToLast toolResults r else toolResults
    (a', messages1 ++ [⟨"user", .toolResults toolResults'⟩], true)

/-! ### Subagent runner (`tools/subagent.go`, `tools/done.go`) -/

/-- `DoneSignalPrefix`: the literal completion sentinel. -/
def doneSignal : String := "DONE_SIGNAL:"

/-- Truncation of a summary to 500 characters (`args.Summary[:500]`;
Go slices bytes, which coincides with characters for ASCII). -/
def truncate500 (s : String) : String :=
  if 500 < s.length then ⟨s.data.take 500⟩ else s

/-- `executeDone`: the `Done` tool's result text for a decoded
`summary` argument — the sentinel followed by the truncated summary. -/
def executeDone (summary : String) : String :=
  doneSignal ++ truncate500 summary

/-- The three error outcomes of `RunSubagent`: `errors.New("subagent
timeout")`, `fmt.Errorf("api call: %w", err)` and `errors.New("max
turns exceeded")`. -/
inductive SubagentError where
  | timeout
  | apiCall (e : String)
  | maxTurns
deriving Repr, DecidableEq

/-- The error string of each `RunSubagent` failure. -/
def subagentErrorMessage : SubagentError → String
  | .timeout => "subagent timeout"
  | .apiCall e => "api call: " ++ e
  | .maxTurns => "max turns exceeded"

/-- The environment of one subagent run: `timedOut t` is whether the
15-minute deadline context is observed as expired by the `select` at
the start of turn `t`; `response t` the outcome of the
`client.Messages.Create` call issued on turn `t`; `exec` the tool
dispatcher (`tools.Execute`). -/
structure SubagentEnv where
  timedOut : Nat → Bool
  response : Nat → Except String Message
  exec : String → String → String

/-- The per-turn tool loop of `RunSubagent`: execute each `tool_use`
block in order; as soon as one result starts with the completion
sentinel, return the remainder of that result (skipping the remaining
blocks); otherwise collect the `tool_result` batch.  The first
component is the trace of `(name, input)` pairs actually executed. -/
def runSubagentTools (exec : String → String → String) :
    List ContentBlock → List (String × String) × (String ⊕ List ToolResultBlock)
  | [] => ([], .inr [])
  | b :: rest =>
    if b.type != "tool_use" then runSubagentTools exec rest
    else
      let r := exec b.name b.input
      if goHasPfx r doneSignal then
        ([(b.name, b.input)], .inl (goTrimPfx r doneSignal))
      else
        let res := runSubagentTools exec rest
        ((b.name, b.input) :: res.1,
          match res.2 with
          | .inl s => .inl s
          | .inr rs => .inr (⟨"tool_result", b.id, r⟩ :: rs))

/-- First `text` block's text of a content list (empty when none),
the graceful-completion result for a non-`tool_use` stop reason. -/
def firstText : List ContentBlock → String
  | [] => ""
  | b :: rest => if b.type == "text" then b.text else firstText rest

/-- The turn loop of `RunSubagent`: check the deadline, call the model,
append the assistant entry; a non-`tool_use` stop reason returns the
first text block; a sentinel tool result returns its summary; otherwise
append the tool-result batch and recurse.  `fuel` is the number of
turns still permitted (`maxTurns - turn`). -/
def runSubagentLoop (env : SubagentEnv) (messages : List MessageParam) (turn : Nat) :
    Nat → Except SubagentError String
  | 0 => .error .maxTurns
  | fuel + 1 =>
    if env.timedOut turn then .error .timeout
    else
      match env.response turn with
      | .error e => .error (.apiCall e)
      | .ok msg =>
        let messages1 := messages ++ [⟨"assistant", .blocks msg.content⟩]
        if msg.stopReason != "tool_use" then
          .ok (firstText msg.content)
        else
          match (runSubagentTools env.exec msg.content).2 with
          | .inl summary => .ok summary
          | .inr toolResults =>
            runSubagentLoop env (messages1 ++ [⟨"user", .toolResults toolResults⟩]) (turn + 1) fuel

/-- `maxTurns`. -/
def subagentMaxTurns : Nat := 100

/-- `RunSubagent`: an isolated conversation seeded with the task
prompt, driven for at most `maxTurns` turns. -/
def runSubagent (env : SubagentEnv) (prompt : String) : Except SubagentError String :=
  runSubagentLoop env [⟨"user", .text prompt⟩] 0 subagentMaxTurns

/-- The `"Hel"`/`"lo"` scenario: the two text fragments of the spec's
streaming example. -/
def helloDeltas : List SseDelta :=
  [{ type := "text_delta", text := "Hel" }, { type := "text_delta", text := "lo" }]

/-- The freshly opened text block of the streaming example. -/
def helloStart : ContentBlock := { type := "text" }

/-- An assistant message requesting one ordinary (non-`Done`) tool. -/
def toolMsg : Message :=
  { stopReason := "tool_use",
    content := [{ type := "tool_use", id := "t1", name := "Grep", input := "q" }] }

/-- An assistant message whose single tool request is the `Done` tool. -/
def doneMsg : Message :=
  { stopReason := "tool_use",
    content := [{ type := "tool_use", id := "d1", name := "Done", input := "raw" }] }

/-- A subagent environment that calls `Done` with summary `"X"` on its
first turn, never times out. -/
def c4Env : SubagentEnv :=
  { timedOut := fun _ => false,
    response := fun _ => .ok doneMsg,
    exec := fun n _ => if n == "Done" then executeDone "X" else "r" }

/-- A subagent environment that loops on tool calls forever: no done
signal, no timeout. -/
def loopEnv : SubagentEnv :=
  { timedOut := fun _ => false,
    response := fun _ => .ok toolMsg,
    exec := fun _ _ => "res" }

/-- A subagent environment whose deadline is observed as expired from
the second turn-boundary check on (it expires during turn 0), looping
on tool calls. -/
def lateDeadlineLoopEnv : SubagentEnv :=
  { timedOut := fun t => decide (1 ≤ t),
    response := fun _ => .ok toolMsg,
    exec := fun _ _ => "res" }

/-- A subagent environment whose deadline expires during turn 0's model
call (observed only from the turn-1 check on) while that call requests
the `Done` tool. -/
def lateDeadlineDoneEnv : SubagentEnv :=
  { timedOut := fun t => decide (1 ≤ t),
    response := fun _ => .ok doneMsg,
    exec := fun n _ => if n == "Done" then doneSignal ++ "finished late" else "r" }

/-- A 600-character summary, longer than the `Done` tool's 500-character
cap. -/
def longSummary : String := ⟨List.replicate 600 'x'⟩

/-- An assistant message requesting three tools `Ls`, `Grep`, `Rm` in
that order. -/
def threeToolMsg : Message :=
  { stopReason := "tool_use",
    content := [{ type := "tool_use", id := "a", name := "Ls", input := "1" },
                { type := "tool_use", id := "b", name := "Grep", input := "2" },
                { type := "tool_use", id := "c", name := "Rm", input := "3" }] }

/-- A subagent environment in which an ordinary tool (`Grep`, not
`Done`) emits a sentinel-prefixed result with a 600-character
remainder. -/
def sentinelGrepEnv : SubagentEnv :=
  { timedOut := fun _ => false,
    response := fun _ => .ok threeToolMsg,
    exec := fun n _ => if n == "Grep" then doneSignal ++ longSummary else "r" }

/-! ## Theorems -/

/-- Unfolding step of the scanner loop. -/
theorem processLines_cons (s : StreamState) (l : StreamLine) (ls : List StreamLine) :
    processLines s (l :: ls) = processLines (applyLine s l) ls := rfl

/-- Splitting the scanner loop over a concatenation. -/
theorem processLines_append (s : StreamState) (ls₁ ls₂ : List StreamLine) :
    processLines s (ls₁ ++ ls₂) = processLines (processLines s ls₁) ls₂ :=
  List.foldl_append _ _ _ _

/-- A list is a `isPrefixOf`-prefix of itself followed by anything. -/
theorem isPrefixOf_append_self (a b : List Char) : a.isPrefixOf (a ++ b) = true := by
  rw [List.isPrefixOf_iff_prefix]
  exact List.prefix_append a b

/-- `strings.HasPrefix` holds on a literal concatenation. -/
theorem goHasPfx_append (p s : String) : goHasPfx (p ++ s) p = true := by
  simp [goHasPfx, String.data_append, isPrefixOf_append_self]

/-- `strings.TrimPrefix` recovers the suffix of a literal concatenation. -/
theorem goTrimPfx_append (p s : String) : goTrimPfx (p ++ s) p = s := by
  rw [goTrimPfx, if_pos (by simp [goHasPfx_append])]
  show String.mk ((p ++ s).data.drop p.data.length) = s
  rw [String.data_append, List.drop_left]

/-- Processing all `content_block_delta` frames of a delta list while a
block is open appends, kind by kind, the concatenated fragments to the
open block's text and thinking, to the tool-input buffer and to the
accumulated final text; the message built so far is untouched. -/
theorem processDeltas (ds : List SseDelta) :
    ∀ (s : StreamState) (cb : ContentBlock), s.currentBlock = some cb →
      processLines s (ds.map deltaFrame) =
        { s with
          currentBlock := some { cb with
            text := cb.text ++ strConcat (textFrags ds),
            thinking := cb.thinking ++ strConcat (thinkingFrags ds) },
          toolInputJSON := s.toolInputJSON ++ strConcat (inputFrags ds),
          finalText := s.finalText ++ strConcat (textFrags ds) } := by
  induction ds with
  | nil =>
    intro s cb h
    obtain ⟨msg, cur, tij, ft⟩ := s
    simp only [StreamState.currentBlock] at h
    subst h
    simp [processLines, textFrags, thinkingFrags, inputFrags, strConcat, String.append_empty]
  | cons d ds ih =>
    intro s cb h
    rw [List.map_cons, processLines_cons]
    by_cases h1 : d.type = "text_delta"
    · have hstep : applyLine s (deltaFrame d) =
          { s with currentBlock := some { cb with text := cb.text ++ d.text },
                   finalText := s.finalText ++ d.text } := by
        simp [applyLine, deltaFrame, applyEvent, h, h1]
      rw [hstep, ih _ _ rfl]
      simp [textFrags, thinkingFrags, inputFrags, strConcat, List.filter_cons, h1,
        String.append_assoc]
    · by_cases h2 : d.type = "input_json_delta"
      · have hstep : applyLine s (deltaFrame d) =
            { s with toolInputJSON := s.toolInputJSON ++ d.partialJSON } := by
          simp [applyLine, deltaFrame, applyEvent, h, h1, h2]
        rw [hstep, ih { s with toolInputJSON := s.toolInputJSON ++ d.partialJSON } cb h]
        simp [textFrags, thinkingFrags, inputFrags, strConcat, List.filter_cons, h1, h2,
          String.append_assoc]
      · by_cases h3 : d.type = "thinking_delta"
        · have hstep : applyLine s (deltaFrame d) =
              { s with currentBlock := some { cb with thinking := cb.thinking ++ d.thinking } } := by
            simp [applyLine, deltaFrame, applyEvent, h, h1, h2, h3]
          rw [hstep, ih _ _ rfl]
          simp [textFrags, thinkingFrags, inputFrags, strConcat, List.filter_cons, h1, h2, h3,
            String.append_assoc]
        · have hstep : applyLine s (deltaFrame d) = s := by
            simp [applyLine, deltaFrame, applyEvent, h, h1, h2, h3]
          rw [hstep, ih s cb h]
          simp [textFrags, thinkingFrags, inputFrags, strConcat, List.filter_cons, h1, h2, h3]

/-- Processing one full block — `content_block_start`, any interleaving
of delta frames, `content_block_stop` — appends exactly one finalized
block to the message: its text and thinking extended by the
concatenated fragments, and, for a `tool_use` block with a non-empty
accumulated buffer, its input replaced by that buffer. -/
theorem processBlock (s : StreamState) (cb : ContentBlock) (ds : List SseDelta) :
    processLines s (startFrame cb :: ds.map deltaFrame ++ [stopFrame]) =
      { s with
        message := { s.message with content := s.message.content ++
          [if cb.type == "tool_use" && !(strConcat (inputFrags ds) == "") then
            { cb with
              text := cb.text ++ strConcat (textFrags ds),
              thinking := cb.thinking ++ strConcat (thinkingFrags ds),
              input := strConcat (inputFrags ds) }
          else
            { cb with
              text := cb.text ++ strConcat (textFrags ds),
              thinking := cb.thinking ++ strConcat (thinkingFrags ds) }] },
        currentBlock := none,
        toolInputJSON := strConcat (inputFrags ds),
        finalText := s.finalText ++ strConcat (textFrags ds) } := by
  rw [processLines_append, processLines_cons s (startFrame cb)]
  have hstart : applyLine s (startFrame cb) =
      { s with currentBlock := some cb, toolInputJSON := "" } := by
    simp [applyLine, startFrame, applyEvent]
  rw [hstart, processDeltas ds _ cb rfl]
  simp [applyLine, stopFrame, applyEvent, processLines, String.empty_append]

/-- C1.  For every content block accumulated by one streamed response,
the concatenation in arrival order of the `text_delta` fragments
delivered while the block is open equals the finalized block's text,
the concatenation of the `thinking_delta` fragments equals its thinking
text, and the concatenation of the `input_json_delta` fragments equals
its tool input payload (the block having been opened empty by its
`content_block_start` frame, as on the wire). -/
theorem c1_stream_fragment_concat (s : StreamState) (cb : ContentBlock) (ds : List SseDelta)
    (ht : cb.text = "") (hk : cb.thinking = "") (hi : cb.input = "") :
    (processLines s (startFrame cb :: ds.map deltaFrame ++ [stopFrame])).message.content =
      s.message.content ++
        [{ cb with
           text := strConcat (textFrags ds),
           thinking := strConcat (thinkingFrags ds),
           input := if cb.type == "tool_use" then strConcat (inputFrags ds) else "" }] := by
  rw [processBlock]
  by_cases hty : cb.type = "tool_use" <;> by_cases hin : strConcat (inputFrags ds) = "" <;>
    simp [ht, hk, hi, hty, hin, String.empty_append]

/-- C1 witness.  Streaming `"Hel"` then `"lo"` followed by
`content_block_stop` yields a first block whose text equals `"Hello"`. -/
theorem c1_stream_fragment_concat_witness :
    (processLines ({} : StreamState)
        (startFrame helloStart :: helloDeltas.map deltaFrame ++ [stopFrame])).message.content =
      ([{ type := "text", text := "Hello" }] : List ContentBlock) := by
  have h := c1_stream_fragment_concat ({} : StreamState) helloStart helloDeltas rfl rfl rfl
  rw [h]
  rfl

/-- C9.  A data line whose JSON payload fails to decode is skipped
silently: processing a body with a malformed frame inserted anywhere
equals processing the body without it, `FinalMessage` returns the same
result (and no error when the scanner itself reports none), and the
`Events` channel forwards the same decoded frames. -/
theorem c9_malformed_frame_skipped (s : StreamState) (pre post : List StreamLine)
    (raw : String) (scanErr : Option String) :
    processLines s (pre ++ StreamLine.malformed raw :: post) = processLines s (pre ++ post)
    ∧ finalMessage (pre ++ StreamLine.malformed raw :: post) scanErr
        = finalMessage (pre ++ post) scanErr
    ∧ (finalMessage (pre ++ StreamLine.malformed raw :: post) none).2 = none
    ∧ eventsOf (pre ++ StreamLine.malformed raw :: post) = eventsOf (pre ++ post) := by
  have key : ∀ s₀ : StreamState,
      processLines s₀ (pre ++ StreamLine.malformed raw :: post) = processLines s₀ (pre ++ post) := by
    intro s₀
    rw [processLines_append, processLines_append, processLines_cons]
    rfl
  refine ⟨key s, ?_, ?_, ?_⟩
  · cases scanErr with
    | some e => rfl
    | none => simp [finalMessage, key]
  · rfl
  · simp [eventsOf, List.filterMap_append, List.filterMap_cons]

/-- Tool execution yields exactly one `tool_result` per `tool_use`
block, carrying that block's id, in block order. -/
theorem executeTools_ids (exec : String → String → String) :
    ∀ (a : AgentSt) (bs : List ContentBlock),
      (executeToolsGo exec a bs).2.map (fun r => r.toolUseID)
        = (bs.filter fun b => b.type == "tool_use").map (fun b => b.id) := by
  intro a bs
  induction bs generalizing a with
  | nil => rfl
  | cons b rest ih =>
    by_cases hb : b.type = "tool_use"
    · simp only [executeToolsGo, hb, List.filter_cons]
      simp [ih]
    · simp only [executeToolsGo, List.filter_cons]
      simp [hb, ih]

/-- Appending a reminder to the last tool result's text leaves every
result's `tool_use_id` (and their order) unchanged. -/
theorem appendToLast_ids (rs : List ToolResultBlock) (x : String) :
    (appendToLast rs x).map (fun r => r.toolUseID) = rs.map (fun r => r.toolUseID) := by
  induction rs with
  | nil => rfl
  | cons b rest ih =>
    cases rest with
    | nil => rfl
    | cons c rest' =>
      simp only [appendToLast, List.map_cons]
      exact congrArg _ ih

/-- C2.  In one conversation-loop iteration whose assistant message
requests at least one tool, the entry appended right after the
assistant entry — before any further request — is a `user` entry whose
tool-result batch answers the `tool_use` blocks exactly: one result per
block, each carrying its originating block's id, in the blocks'
order. -/
theorem c2_tool_results_answer_blocks (exec : String → String → String) (a : AgentSt)
    (hasPendingTodos : Bool) (messages : List MessageParam) (msg : Message)
    (hne : msg.content.filter (fun b => b.type == "tool_use") ≠ []) :
    ∃ rs : List ToolResultBlock,
      (runInferenceStep exec a hasPendingTodos messages msg).2.1
        = messages ++ [⟨"assistant", .blocks msg.content⟩, ⟨"user", .toolResults rs⟩]
      ∧ rs.map (fun r => r.toolUseID)
        = (msg.content.filter fun b => b.type == "tool_use").map (fun b => b.id) := by
  have hids := executeTools_ids exec a msg.content
  have hne' : (executeToolsGo exec a msg.content).2 ≠ [] := by
    intro hnil
    rw [hnil] at hids
    exact hne (List.map_eq_nil_iff.mp hids.symm)
  refine ⟨?_, ?_, ?_⟩
  · exact
      (if getReminders ⟨(executeToolsGo exec a msg.content).1.planMode,
          (executeToolsGo exec a msg.content).1.turnsSinceTodoWrite, hasPendingTodos⟩ != "" then
        appendToLast (executeToolsGo exec a msg.content).2
          (getReminders ⟨(executeToolsGo exec a msg.content).1.planMode,
            (executeToolsGo exec a msg.content).1.turnsSinceTodoWrite, hasPendingTodos⟩)
      else (executeToolsGo exec a msg.content).2)
  · simp only [runInferenceStep]
    rw [if_neg (by simp [List.isEmpty_iff, hne'])]
    simp [List.append_assoc]
  · by_cases hr : getReminders ⟨(executeToolsGo exec a msg.content).1.planMode,
        (executeToolsGo exec a msg.content).1.turnsSinceTodoWrite, hasPendingTodos⟩ = ""
    · simp [hr, hids]
    · simp [hr, appendToLast_ids, hids]

/-- C2 witness.  A concrete turn with two tool requests `a` then `b`:
the appended batch answers them as `[a, b]`. -/
theorem c2_tool_results_answer_blocks_witness :
    ∃ rs : List ToolResultBlock,
      (runInferenceStep (fun n _ => "res-" ++ n) ⟨false, 0⟩ false []
          { stopReason := "tool_use",
            content := [{ type := "tool_use", id := "a", name := "Grep", input := "1" },
                        { type := "tool_use", id := "b", name := "Ls", input := "2" }] }).2.1
        = [⟨"assistant", .blocks [{ type := "tool_use", id := "a", name := "Grep", input := "1" },
                                  { type := "tool_use", id := "b", name := "Ls", input := "2" }]⟩,
           ⟨"user", .toolResults rs⟩]
      ∧ rs.map (fun r => r.toolUseID) = ["a", "b"] := by
  have h := c2_tool_results_answer_blocks (fun n _ => "res-" ++ n) ⟨false, 0⟩ false []
    { stopReason := "tool_use",
      content := [{ type := "tool_use", id := "a", name := "Grep", input := "1" },
                  { type := "tool_use", id := "b", name := "Ls", input := "2" }] }
    (by decide)
  simpa using h

/-- C3.  The plan-mode capability set is a strict subset of the full
set — every read-only tool is offered in the full set, while
`WriteFile` is offered in the full set but not in plan mode — and it
contains none of the mutating tools: file write, removal, directory
creation, text replacement, shell execution or source control. -/
theorem c3_plan_mode_read_only (mcp : List ToolDef) :
    (∀ t ∈ toolsReadOnly, t ∈ toolsAll mcp)
    ∧ (⟨"WriteFile"⟩ : ToolDef) ∈ toolsAll mcp
    ∧ (⟨"WriteFile"⟩ : ToolDef) ∉ toolsReadOnly
    ∧ (∀ t ∈ toolsReadOnly,
        t.name ≠ "WriteFile" ∧ t.name ≠ "Rm" ∧ t.name ≠ "Mkdir" ∧ t.name ≠ "ReplaceText"
          ∧ t.name ≠ "bash" ∧ t.name ≠ "git") := by
  refine ⟨?_, ?_, ?_, ?_⟩
  · intro t ht
    exact List.mem_append_left _ (List.mem_of_mem_filter ht)
  · exact List.mem_append_left _ (by decide)
  · decide
  · decide

/-- C3 witness.  At the empty MCP set: `ReadFile` is offered in full
mode, `WriteFile` is offered in full mode but absent from plan mode. -/
theorem c3_plan_mode_read_only_witness :
    (⟨"ReadFile"⟩ : ToolDef) ∈ toolsAll []
    ∧ (⟨"WriteFile"⟩ : ToolDef) ∈ toolsAll []
    ∧ (⟨"WriteFile"⟩ : ToolDef) ∉ toolsReadOnly := by
  have h := c3_plan_mode_read_only []
  exact ⟨h.1 ⟨"ReadFile"⟩ (by decide), h.2.1, h.2.2.1⟩

/-- C7.  Once the session permission mode is `accept_all`, every
subsequent permission request auto-allows: each reply is
`allowed = true` with no escalation request, no stdin line is consumed
and no prompt is displayed, and the mode remains `accept_all`; moreover
`RequestPermission` is exactly `RequestPermissionWithDiff` with an
empty diff. -/
theorem c7_accept_all_auto_allows (stdin : List String) (rs : List PermRequest) :
    runPermissionSession "accept_all" stdin rs
      = (rs.map fun _ => (⟨true, "auto-accepted (session mode)", false⟩ : PermReply),
         "accept_all", stdin, ([] : List Effect))
    ∧ ∀ (mode : String) (st : List String) (op path details : String),
        requestPermission mode st op path details
          = requestPermissionWithDiff mode st op path details "" := by
  constructor
  · induction rs with
    | nil => rfl
    | cons r rest ih =>
      simp only [runPermissionSession, gatedRequest, requestPermissionWithDiff]
      simp [ih]
  · intro mode st op path details
    rfl

/-- The per-turn tool loop on `pre ++ b :: post`, when no tool result
of `pre` carries the sentinel and `b`'s result is the sentinel followed
by `s`: exactly the `tool_use` blocks of `pre` and then `b` are
executed (the blocks after `b` are skipped) and the outcome is the
summary `s`, verbatim. -/
theorem runSubagentTools_done (exec : String → String → String)
    (pre : List ContentBlock) (b : ContentBlock) (post : List ContentBlock) (s : String)
    (hpre : ∀ c ∈ pre, c.type = "tool_use" → goHasPfx (exec c.name c.input) doneSignal = false)
    (hb : b.type = "tool_use")
    (hr : exec b.name b.input = doneSignal ++ s) :
    runSubagentTools exec (pre ++ b :: post)
      = ((pre.filter fun c => c.type == "tool_use").map (fun c => (c.name, c.input))
          ++ [(b.name, b.input)], .inl s) := by
  induction pre with
  | nil =>
    simp [runSubagentTools, hb, hr, goHasPfx_append, goTrimPfx_append]
  | cons c pre' ih =>
    have ih' := ih fun x hx hty => hpre x (List.mem_cons_of_mem c hx) hty
    by_cases hct : c.type = "tool_use"
    · have hcf : goHasPfx (exec c.name c.input) doneSignal = false :=
        hpre c (List.mem_cons_self c pre') hct
      simp [runSubagentTools, hct, hcf, ih', List.filter_cons]
    · simp [runSubagentTools, hct, ih', List.filter_cons]

/-- A turn whose model response carries a sentinel-producing tool call
returns that summary immediately, whatever fuel remains. -/
theorem runSubagentLoop_done (env : SubagentEnv) (m : List MessageParam)
    (turn fuel : Nat) (msg : Message)
    (pre : List ContentBlock) (b : ContentBlock) (post : List ContentBlock) (s : String)
    (hto : env.timedOut turn = false)
    (hresp : env.response turn = .ok msg)
    (hstop : msg.stopReason = "tool_use")
    (hcontent : msg.content = pre ++ b :: post)
    (hpre : ∀ c ∈ pre, c.type = "tool_use" → goHasPfx (env.exec c.name c.input) doneSignal = false)
    (hb : b.type = "tool_use")
    (hr : env.exec b.name b.input = doneSignal ++ s) :
    runSubagentLoop env m turn (fuel + 1) = .ok s := by
  simp [runSubagentLoop, hto, hresp, hstop, hcontent,
    runSubagentTools_done env.exec pre b post s hpre hb hr]

/-- C4.  If during a subagent run the `Done` tool is called with
summary `X` (no earlier tool result of that turn carrying the
sentinel), `RunSubagent` returns `X` truncated to the 500-character cap
as its summary with no error, performing no further turns even though
`maxTurns` has not been reached. -/
theorem c4_done_tool_returns_summary (env : SubagentEnv) (prompt : String) (msg : Message)
    (pre : List ContentBlock) (b : ContentBlock) (post : List ContentBlock) (X : String)
    (hto : env.timedOut 0 = false)
    (hresp : env.response 0 = .ok msg)
    (hstop : msg.stopReason = "tool_use")
    (hcontent : msg.content = pre ++ b :: post)
    (hpre : ∀ c ∈ pre, c.type = "tool_use" → goHasPfx (env.exec c.name c.input) doneSignal = false)
    (hb : b.type = "tool_use")
    (_hname : b.name = "Done")
    (hexec : env.exec b.name b.input = executeDone X) :
    runSubagent env prompt = .ok (truncate500 X) := by
  have hr : env.exec b.name b.input = doneSignal ++ truncate500 X := hexec
  exact runSubagentLoop_done env _ 0 99 msg pre b post (truncate500 X)
    hto hresp hstop hcontent hpre hb hr

/-- C4 witness.  A first-turn `Done` call with summary `"X"`: the run
returns `"X"` with no error. -/
theorem c4_done_tool_returns_summary_witness :
    runSubagent c4Env "task" = .ok "X" := by
  have h := c4_done_tool_returns_summary c4Env "task" doneMsg []
    { type := "tool_use", id := "d1", name := "Done", input := "raw" } [] "X"
    rfl rfl rfl rfl (fun c hc => absurd hc (List.not_mem_nil c)) rfl rfl rfl
  exact h

/-- C10.  The early-completion check applies to the result of every
executed tool, not only `Done`: when any tool's result text begins with
the literal sentinel prefix, the per-turn loop executes exactly the
blocks up to and including that tool (skipping the rest of the turn)
and `RunSubagent` immediately returns the remainder of that result —
with no additional truncation — as the summary, with no error. -/
theorem c10_sentinel_checked_for_every_tool (env : SubagentEnv) (prompt : String)
    (msg : Message) (pre : List ContentBlock) (b : ContentBlock) (post : List ContentBlock)
    (s : String)
    (hto : env.timedOut 0 = false)
    (hresp : env.response 0 = .ok msg)
    (hstop : msg.stopReason = "tool_use")
    (hcontent : msg.content = pre ++ b :: post)
    (hpre : ∀ c ∈ pre, c.type = "tool_use" → goHasPfx (env.exec c.name c.input) doneSignal = false)
    (hb : b.type = "tool_use")
    (hexec : env.exec b.name b.input = doneSignal ++ s) :
    runSubagentTools env.exec msg.content
      = ((pre.filter fun c => c.type == "tool_use").map (fun c => (c.name, c.input))
          ++ [(b.name, b.input)], .inl s)
    ∧ runSubagent env prompt = .ok s := by
  constructor
  · rw [hcontent]
    exact runSubagentTools_done env.exec pre b post s hpre hb hexec
  · exact runSubagentLoop_done env _ 0 99 msg pre b post s
      hto hresp hstop hcontent hpre hb hexec

set_option maxRecDepth 4000 in
/-- C10 witness.  `Grep` (not `Done`) emits the sentinel with a
600-character remainder mid-turn: only `Ls` and `Grep` are executed
(`Rm` is skipped) and the full 600-character remainder is returned. -/
theorem c10_sentinel_checked_for_every_tool_witness :
    runSubagentTools sentinelGrepEnv.exec threeToolMsg.content
      = ([("Ls", "1"), ("Grep", "2")], .inl longSummary)
    ∧ runSubagent sentinelGrepEnv "task" = .ok longSummary
    ∧ longSummary.length = 600 := by
  have h := c10_sentinel_checked_for_every_tool sentinelGrepEnv "task" threeToolMsg
    [{ type := "tool_use", id := "a", name := "Ls", input := "1" }]
    { type := "tool_use", id := "b", name := "Grep", input := "2" }
    [{ type := "tool_use", id := "c", name := "Rm", input := "3" }]
    longSummary rfl rfl rfl rfl
    (by intro c hc hty
        simp only [List.mem_singleton] at hc
        subst hc
        rfl)
    rfl rfl
  refine ⟨by simpa using h.1, h.2, by decide⟩

/-- Looping forever on tool calls with no sentinel and no timeout
burns the whole fuel and ends in the turn-exhaustion error. -/
theorem runSubagentLoop_exhausts (env : SubagentEnv)
    (hto : ∀ t, env.timedOut t = false)
    (hresp : ∀ t, ∃ msg, env.response t = .ok msg ∧ msg.stopReason = "tool_use" ∧
        ∃ rs, (runSubagentTools env.exec msg.content).2 = .inr rs) :
    ∀ (fuel turn : Nat) (m : List MessageParam),
      runSubagentLoop env m turn fuel = .error .maxTurns := by
  intro fuel
  induction fuel with
  | zero => intro turn m; rfl
  | succ fuel ih =>
    intro turn m
    obtain ⟨msg, hr, hs, rs, hrs⟩ := hresp turn
    simp [runSubagentLoop, hto turn, hr, hs, hrs, ih (turn + 1)]

/-- When the deadline check first fires at relative turn `d` (all
earlier turns looping on tool calls), the loop ends in the timeout
error. -/
theorem runSubagentLoop_timeout (env : SubagentEnv) :
    ∀ (d turn : Nat) (m : List MessageParam) (fuel : Nat), d < fuel →
      (∀ j, j < d → env.timedOut (turn + j) = false ∧
        ∃ msg, env.response (turn + j) = .ok msg ∧ msg.stopReason = "tool_use" ∧
          ∃ rs, (runSubagentTools env.exec msg.content).2 = .inr rs) →
      env.timedOut (turn + d) = true →
      runSubagentLoop env m turn fuel = .error .timeout := by
  intro d
  induction d with
  | zero =>
    intro turn m fuel hf hj ht
    match fuel, hf with
    | fuel + 1, _ =>
      rw [Nat.add_zero] at ht
      simp [runSubagentLoop, ht]
  | succ d ih =>
    intro turn m fuel hf hj ht
    match fuel, hf with
    | fuel + 1, hf =>
      obtain ⟨hto0, msg, hr, hs, rs, hrs⟩ := by
        have := hj 0 (Nat.succ_pos d)
        rwa [Nat.add_zero] at this
      have hrec : runSubagentLoop env
          (m ++ [⟨"assistant", .blocks msg.content⟩, ⟨"user", .toolResults rs⟩])
          (turn + 1) fuel = .error .timeout := by
        apply ih (turn + 1) _ fuel (by omega)
        · intro j hjd
          have heq : turn + 1 + j = turn + (j + 1) := by omega
          rw [heq]
          exact hj (j + 1) (by omega)
        · have heq : turn + 1 + d = turn + (d + 1) := by omega
          rw [heq]
          exact ht
      simp [runSubagentLoop, hto0, hr, hs, hrs, hrec]

/-- C5.  A subagent run that never produces a sentinel result and never
receives a non-`tool_use` stop reason within the 100-turn cap returns
the turn-exhaustion error `"max turns exceeded"`; a run whose deadline
check fires first (at some turn below the cap) returns the timeout
error `"subagent timeout"`; the two failure kinds are distinct. -/
theorem c5_exhaustion_and_timeout_distinct (env₁ env₂ : SubagentEnv) (p₁ p₂ : String) (d : Nat)
    (h1to : ∀ t, env₁.timedOut t = false)
    (h1resp : ∀ t, ∃ msg, env₁.response t = .ok msg ∧ msg.stopReason = "tool_use" ∧
        ∃ rs, (runSubagentTools env₁.exec msg.content).2 = .inr rs)
    (h2d : d < subagentMaxTurns)
    (h2pre : ∀ j, j < d → env₂.timedOut j = false ∧
        ∃ msg, env₂.response j = .ok msg ∧ msg.stopReason = "tool_use" ∧
          ∃ rs, (runSubagentTools env₂.exec msg.content).2 = .inr rs)
    (h2to : env₂.timedOut d = true) :
    runSubagent env₁ p₁ = .error .maxTurns
    ∧ runSubagent env₂ p₂ = .error .timeout
    ∧ subagentMaxTurns = 100
    ∧ subagentErrorMessage .maxTurns = "max turns exceeded"
    ∧ subagentErrorMessage .timeout = "subagent timeout"
    ∧ subagentErrorMessage .maxTurns ≠ subagentErrorMessage .timeout := by
  refine ⟨runSubagentLoop_exhausts env₁ h1to h1resp _ 0 _, ?_, rfl, rfl, rfl, by decide⟩
  apply runSubagentLoop_timeout env₂ d 0 _ subagentMaxTurns h2d
  · intro j hj
    simpa using h2pre j hj
  · simpa using h2to

/-- C5 witness.  A looping environment exhausts the 100 turns with the
`"max turns exceeded"` error; one whose deadline fires at the turn-1
check returns `"subagent timeout"`; the messages differ. -/
theorem c5_exhaustion_and_timeout_distinct_witness :
    runSubagent loopEnv "a" = .error .maxTurns
    ∧ runSubagent lateDeadlineLoopEnv "b" = .error .timeout
    ∧ subagentErrorMessage .maxTurns ≠ subagentErrorMessage .timeout := by
  have h := c5_exhaustion_and_timeout_distinct loopEnv lateDeadlineLoopEnv "a" "b" 1
    (fun t => rfl)
    (fun t => ⟨toolMsg, rfl, rfl, [⟨"tool_result", "t1", "res"⟩], rfl⟩)
    (by decide)
    (fun j hj => by
      match j, hj with
      | 0, _ => exact ⟨rfl, toolMsg, rfl, rfl, [⟨"tool_result", "t1", "res"⟩], rfl⟩)
    rfl
  exact ⟨h.1, h.2.1, h.2.2.2.2.2⟩

/-- C6 counterexample.  The deadline expires while turn 0's model call
is in flight (`timedOut` is `false` at the turn-0 check and `true` from
the turn-1 check on), yet the in-flight call is not cancelled: its
response is consumed, its `Done` tool result is honored, and
`RunSubagent` returns that summary with no error instead of cancelling
the call and returning the timeout error. -/
theorem c6_inflight_call_not_cancelled_counterexample :
    lateDeadlineDoneEnv.timedOut 0 = false
    ∧ lateDeadlineDoneEnv.timedOut 1 = true
    ∧ runSubagent lateDeadlineDoneEnv "task" = .ok "finished late" :=
  ⟨rfl, rfl, rfl⟩

/-- C6 (amended).  The subagent deadline is consulted only by the check
at the start of each turn: a turn whose check fires returns the timeout
error without issuing a model call, while a turn whose check passes
runs its model call to completion and processes the response —
appending the assistant entry and the tool-result batch and moving to
the next turn — regardless of whether the deadline expires while that
call is in flight. -/
theorem c6_deadline_checked_between_turns (env : SubagentEnv) (m : List MessageParam)
    (turn fuel : Nat) (msg : Message) (rs : List ToolResultBlock)
    (hto : env.timedOut turn = false)
    (hresp : env.response turn = .ok msg)
    (hstop : msg.stopReason = "tool_use")
    (hrs : (runSubagentTools env.exec msg.content).2 = .inr rs) :
    runSubagentLoop env m turn (fuel + 1)
      = runSubagentLoop env
          (m ++ [⟨"assistant", .blocks msg.content⟩, ⟨"user", .toolResults rs⟩])
          (turn + 1) fuel
    ∧ ∀ (m' : List MessageParam) (turn' fuel' : Nat), env.timedOut turn' = true →
        runSubagentLoop env m' turn' (fuel' + 1) = .error .timeout := by
  constructor
  · simp [runSubagentLoop, hto, hresp, hstop, hrs]
  · intro m' turn' fuel' ht
    simp [runSubagentLoop, ht]

/-- C6 amended witness.  In the late-deadline environment, turn 0's
check passes, the in-flight call's tool results are processed and the
loop moves to turn 1, whose check then fires with the timeout error. -/
theorem c6_deadline_checked_between_turns_witness :
    runSubagentLoop lateDeadlineLoopEnv [] 0 100
      = runSubagentLoop lateDeadlineLoopEnv
          [⟨"assistant", .blocks toolMsg.content⟩,
           ⟨"user", .toolResults [⟨"tool_result", "t1", "res"⟩]⟩] 1 99
    ∧ runSubagentLoop lateDeadlineLoopEnv [] 1 99 = .error .timeout := by
  have h := c6_deadline_checked_between_turns lateDeadlineLoopEnv [] 0 99 toolMsg
    [⟨"tool_result", "t1", "res"⟩] rfl rfl rfl rfl
  exact ⟨by simpa using h.1, h.2 [] 1 98 rfl⟩

/-- Splitting on newlines always yields at least one piece. -/
theorem splitNl_ne_nil (l : List Char) : splitNl l ≠ [] := by
  cases l with
  | nil => simp [splitNl]
  | cons c rest =>
    simp only [splitNl]
    by_cases h : c = '\n'
    · simp [h]
    · simp only [h, if_false]
      cases hr : splitNl rest <;> simp [h]

/-- C8 counterexample.  Directory creation and shell execution are not
permission-gated: `mkdir` performs `os.MkdirAll` and `bash` spawns its
process with no permission request in the effect trace (neither even
consults the permission mode or reads user input), against the claim
that every mutating operation is gated by a PermissionGate request
first. -/
theorem c8_mkdir_bash_ungated_counterexample :
    mkdir "/tmp/newdir" none
      = ("created directory /tmp/newdir", [Effect.fsMkdirAll "/tmp/newdir"])
    ∧ bash ["touch", "f"] "" "" 0
      = ("\nexit code: 0", [Effect.execProcess ["touch", "f"]]) :=
  ⟨rfl, by decide⟩

/-- C8 (amended).  File write, file/directory removal and text
replacement are gated by a PermissionGate request first, and a denial
yields a textual `permission denied` ToolResult — a returned result
string, not an abort — while performing no filesystem mutation;
directory creation and shell execution, by contrast, are executed
without any permission request. -/
theorem c8_gated_mutations_denied_textually (mode : String) (stdin : List String)
    (hm : mode ≠ "accept_all")
    (hd1 : goTrim (goLower (stdin.headD "")) ≠ "a")
    (hd2 : goTrim (goLower (stdin.headD "")) ≠ "all")
    (hd3 : goTrim (goLower (stdin.headD "")) ≠ "y")
    (hd4 : goTrim (goLower (stdin.headD "")) ≠ "yes") :
    (∀ path content wErr,
        writeFile mode stdin path content wErr
          = (errText "permission denied: permission denied", mode, stdin.tail,
             [Effect.permissionPrompt "WriteFile" path]))
    ∧ (∀ path recursive rErr,
        rm mode stdin path recursive rErr
          = (errText "permission denied: permission denied", mode, stdin.tail,
             [Effect.permissionPrompt "Rm" path]))
    ∧ (∀ path oldText newText content wErr,
        goCount (goJoinLines (goSplitLines content)) oldText = 1 →
        replaceText mode stdin path oldText newText none none (.ok content) wErr
          = (errText "permission denied: permission denied", mode, stdin.tail,
             [Effect.permissionPrompt "ReplaceText" path]))
    ∧ (∀ path osErr, (mkdir path osErr).2 = [Effect.fsMkdirAll path])
    ∧ (∀ args cwd out code, args ≠ ([] : List String) →
        (bash args cwd out code).2
          = [Effect.execProcess (if args.length == 1 then ["sh", "-c", args.headD ""] else args)]) := by
  have hgate : ∀ op path details diff,
      requestPermissionWithDiff mode stdin op path details diff
        = (⟨false, "permission denied", false⟩, stdin.tail,
           [Effect.permissionPrompt op path]) := by
    intro op path details diff
    simp only [List.headD_eq_head?] at hd1 hd2 hd3 hd4
    unfold requestPermissionWithDiff
    rw [if_neg (by simp [hm]), if_neg (by simp [hd1, hd2]), if_neg (by simp [hd3, hd4])]
  refine ⟨?_, ?_, ?_, ?_, ?_⟩
  · intro path content wErr
    simp [writeFile, hgate]
  · intro path recursive rErr
    simp [rm, requestPermission, hgate]
  · intro path oldText newText content wErr hcount
    have hnn : goSplitLines content ≠ [] := by
      simp only [goSplitLines, ne_eq, List.map_eq_nil_iff]
      exact splitNl_ne_nil content.data
    have hlen : ¬ (goSplitLines content).length ≤ 0 := by
      simpa [Nat.le_zero, List.length_eq_zero] using hnn
    simp only [replaceText]
    rw [if_neg hlen]
    simp only [List.drop_zero, Nat.sub_zero, List.take_length]
    rw [hcount]
    simp [hgate]
  · intro path osErr
    cases osErr <;> rfl
  · intro args cwd out code hne
    simp [bash, hne]

/-- C8 amended witness.  In `prompt` mode with the user answering `n`:
a write is denied with a textual `permission denied` result after one
prompt and no write effect, while `mkdir` performs its directory
creation with no prompt at all. -/
theorem c8_gated_mutations_denied_textually_witness :
    writeFile "prompt" ["n"] "/tmp/f" "xyz" none
      = (errText "permission denied: permission denied", "prompt", [],
         [Effect.permissionPrompt "WriteFile" "/tmp/f"])
    ∧ (mkdir "/tmp/d" none).2 = [Effect.fsMkdirAll "/tmp/d"] := by
  have h := c8_gated_mutations_denied_textually "prompt" ["n"]
    (by decide) (by decide) (by decide) (by decide) (by decide)
  exact ⟨h.1 "/tmp/f" "xyz" none, h.2.2.2.1 "/tmp/d" none⟩

end SimpleAgent
